import Mathlib

/-!
# Verification of the draft recommendation engine in `src/draft/main.py`

A shallow embedding of the in-memory draft session core of the
nfl-fantasy-analytics repository: the roster slot manager, the player
pool ADP adjustment, the recommendation saturation balancing, and the
draft session operations (draft / undo / drop / save / load).

Conventions of the embedding:
* Python dicts whose insertion order matters (the roster) become
  association lists `List (String × _)` in the same order.
* Python's unbounded ints become `Int`; ADP values (Python floats used
  only through `+ * ≤ min max` on decimal data) become `ℚ`.
* The fuzzy matcher `difflib.get_close_matches` is an external
  collaborator of the resolution algorithm; operations that call it are
  parameterized by an arbitrary function with the same interface, so
  every theorem below holds for every possible fuzzy matcher.
* Persistence I/O is a black box per the spec; `saveDraftState` /
  `loadDraftState` model the construction of the JSON-serializable
  snapshot object and its decoding back into the in-memory state.
-/

/-- Occupant of a roster slot, the dict
`{"name": .., "position": .., "pick": .., "slot": ..}` stored in
`RosterSlotManager.roster` by `add_player`. -/
structure Occupant where
  name : String
  position : String
  pick : Int
  slot : String
deriving DecidableEq, Repr

/-- Entry of `self.my_team`, the dict
`{"player": .., "position": .., "pick": .., "slot": ..}` appended by
`draft_player`. -/
structure TeamEntry where
  player : String
  position : String
  pick : Int
  slot : String
deriving DecidableEq, Repr

/-- The roster dict `slot_name -> occupant-or-None`, in insertion order. -/
abbrev Roster := List (String × Option Occupant)

/-- A row of the player pool DataFrame `self.players` (the fields the
draft-session operations read: `player` and `position`; names are
assumed non-NaN, matching the `notna()` filter applied before use). -/
structure PoolPlayer where
  player : String
  position : String
deriving DecidableEq, Repr

/-- The mutable state of a draft session
(`SuperflexDraftManager` fields). -/
structure DraftState where
  players : List PoolPlayer
  draftedPlayers : List String
  myTeam : List TeamEntry
  currentPick : Int
  roster : Roster
deriving DecidableEq, Repr

/-- ASCII lower-casing of one character (`str.lower()` on the ASCII
names appearing in the data). -/
def charLower (c : Char) : Char :=
  if 65 ≤ c.toNat ∧ c.toNat ≤ 90 then Char.ofNat (c.toNat + 32) else c

/-- `str.lower()`: kernel-computable lower-casing over the character
list of a string. -/
def lowerStr (s : String) : String :=
  ⟨s.data.map charLower⟩

/-- Whitespace test used by `str.strip()`. -/
def isSpaceChar (c : Char) : Bool :=
  c = ' ' || c = '\t' || c = '\n' || c = '\r'

/-- `str.strip()`: drop leading and trailing whitespace. -/
def trimStr (s : String) : String :=
  ⟨((s.data.dropWhile isSpaceChar).reverse.dropWhile isSpaceChar).reverse⟩

/-- Character-list prefix test. -/
def startsWithChars : List Char → List Char → Bool
  | _, [] => true
  | [], _ :: _ => false
  | c :: cs, d :: ds => c == d && startsWithChars cs ds

/-- `str.startswith(t)`: kernel-computable prefix test. -/
def startsWithStr (s t : String) : Bool :=
  startsWithChars s.data t.data

/-- Defense alias normalization `if position in ["D", "DST"]: "D/ST"`. -/
def normalizePos (p : String) : String :=
  if p = "D" ∨ p = "DST" then "D/ST" else p

/-- `RosterSlotManager.slot_eligibility` table (positions to the ordered
list of slot types they may fill); `.get(position, [])` default. -/
def slotEligibility (position : String) : List String :=
  match position with
  | "QB" => ["QB", "OP"]
  | "RB" => ["RB", "FLEX", "OP"]
  | "WR" => ["WR", "FLEX", "OP"]
  | "TE" => ["TE", "FLEX", "OP"]
  | "K" => ["K"]
  | "D/ST" => ["D/ST"]
  | "D" => ["D/ST"]
  | "DST" => ["D/ST"]
  | _ => []

/-- Scan the roster dict in order for the first empty slot whose name
starts with `t` (the inner loop of `RosterSlotManager.add_player`). -/
def findEmptySlot : Roster → String → Option String
  | [], _ => none
  | (k, v) :: rest, t =>
    if startsWithStr k t = true ∧ v = none then some k else findEmptySlot rest t

/-- Assign `v` to the roster slot named `k` (dict item assignment). -/
def setSlot (r : Roster) (k : String) (v : Option Occupant) : Roster :=
  r.map (fun kv => if kv.1 = k then (kv.1, v) else kv)

/-- The slot-type loop of `RosterSlotManager.add_player`: try each
eligible slot type in order, then fall back to the first empty bench
slot. -/
def addPlayerGo (r : Roster) (nm pos : String) (pk : Int) :
    List String → Option (String × Roster)
  | [] =>
    match findEmptySlot r "BENCH" with
    | some s => some (s, setSlot r s (some ⟨nm, pos, pk, s⟩))
    | none => none
  | t :: ts =>
    match findEmptySlot r t with
    | some s => some (s, setSlot r s (some ⟨nm, pos, pk, s⟩))
    | none => addPlayerGo r nm pos pk ts

/-- `RosterSlotManager.add_player`: returns the filled slot name and the
updated roster, or `none` (the "no slot" sentinel) if the roster is
completely full. -/
def addPlayer (r : Roster) (nm pos : String) (pk : Int) :
    Option (String × Roster) :=
  addPlayerGo r nm pos pk (slotEligibility pos)

/-- `RosterSlotManager._initialize_roster`: one slot per unit of each
configured slot type, starting types in fixed priority order, numbered
`T1..Tn` when the count exceeds 1, bench slots always numbered. -/
def initRoster (config : List (String × Nat)) : Roster :=
  (["QB", "RB", "WR", "TE", "FLEX", "OP", "K", "D/ST"].flatMap fun t =>
    match config.find? (fun kv => kv.1 == t) with
    | some kv =>
      (List.range kv.2).map fun i =>
        ((if kv.2 > 1 then t ++ toString (i + 1) else t),
          (none : Option Occupant))
    | none => []) ++
  (match config.find? (fun kv => kv.1 == "BENCH") with
  | some kv =>
    (List.range kv.2).map fun i =>
      ("BENCH" ++ toString (i + 1), (none : Option Occupant))
  | none => [])

/-- The default Superflex roster configuration returned by
`ESPNSuperflexConnector.get_league_settings` when ESPN is unavailable. -/
def defaultRosterConfig : List (String × Nat) :=
  [("QB", 1), ("RB", 2), ("WR", 2), ("TE", 1), ("FLEX", 2), ("OP", 1),
    ("K", 1), ("D/ST", 1), ("BENCH", 7)]

/-- Name resolution inside `draft_player`: strip the input, try a
case-insensitive exact match against the pool first (taking the first
row on ties, `iloc[0]`), otherwise defer to `_smart_fuzzy_match`,
abstracted as the parameter `fz`. -/
def resolveInput (fz : String → List PoolPlayer → Option PoolPlayer)
    (pool : List PoolPlayer) (input : String) : Option PoolPlayer :=
  let nm := trimStr input
  match pool.filter (fun p => lowerStr p.player == lowerStr nm) with
  | [] => fz nm pool
  | p :: _ => some p

/-- `SuperflexDraftManager.draft_player`: resolve the free-text input,
reject if already drafted, and either record an opponent pick (append to
`drafted_players`, advance the pick) or additionally assign a roster
slot and append to `my_team`; a full roster rejects the whole pick,
removing the provisionally appended name again. -/
def draftPlayer (fz : String → List PoolPlayer → Option PoolPlayer)
    (s : DraftState) (input team : String) : Bool × DraftState :=
  match resolveInput fz s.players input with
  | none => (false, s)
  | some p =>
    let a := p.player
    if a ∈ s.draftedPlayers then (false, s)
    else
      let drafted1 := s.draftedPlayers ++ [a]
      if team = "my_team" then
        let pos := normalizePos p.position
        match addPlayer s.roster a pos s.currentPick with
        | none => (false, { s with draftedPlayers := drafted1.erase a })
        | some (slot, r') =>
          (true,
            { s with
              draftedPlayers := drafted1
              myTeam := s.myTeam ++ [⟨a, pos, s.currentPick, slot⟩]
              currentPick := s.currentPick + 1
              roster := r' })
      else
        (true,
          { s with
            draftedPlayers := drafted1
            currentPick := s.currentPick + 1 })

/-- `SuperflexDraftManager.undo_last_pick`: legal only when the most
recent `my_team` entry's pick number equals `current_pick - 1`; clears
the occupied slot, pops the `my_team` and `drafted_players` entries and
decrements the pick counter. -/
def undoLastPick (s : DraftState) : Bool × DraftState :=
  match s.myTeam.getLast? with
  | none => (false, s)
  | some last =>
    if last.pick = s.currentPick - 1 then
      let r' :=
        if last.slot ≠ "" ∧ s.roster.any (fun kv => kv.1 == last.slot) = true
        then setSlot s.roster last.slot none
        else s.roster
      (true,
        { s with
          roster := r'
          myTeam := s.myTeam.dropLast
          draftedPlayers := s.draftedPlayers.erase last.player
          currentPick := s.currentPick - 1 })
    else (false, s)

/-- Remove the `my_team` entry at index `i` from the session: free its
slot, pop it from `my_team` and remove its name from `drafted_players`
(the committed tail of `SuperflexDraftManager.drop_player`; the pick
counter is deliberately untouched). -/
def doDrop (s : DraftState) (i : Nat) : Bool × DraftState :=
  match s.myTeam[i]? with
  | none => (false, s)
  | some e =>
    let r' :=
      if e.slot ≠ "" ∧ s.roster.any (fun kv => kv.1 == e.slot) = true
      then setSlot s.roster e.slot none
      else s.roster
    (true,
      { s with
        roster := r'
        myTeam := s.myTeam.eraseIdx i
        draftedPlayers := s.draftedPlayers.erase e.player })

/-- `SuperflexDraftManager.drop_player`: resolve against the current
`my_team` only, exact case-insensitive match first, else the fuzzy
close-match list `dfz` (modelling `difflib.get_close_matches` on the
rostered names): a unique close match auto-resolves, zero or several
fail with no state change. -/
def dropPlayer (dfz : String → List String → List String)
    (s : DraftState) (input : String) : Bool × DraftState :=
  let nm := trimStr input
  match s.myTeam.findIdx? (fun e => lowerStr e.player == lowerStr nm) with
  | some i => doDrop s i
  | none =>
    match dfz (lowerStr nm) (s.myTeam.map (fun e => lowerStr e.player)) with
    | [] => (false, s)
    | [m] =>
      match s.myTeam.findIdx? (fun e => lowerStr e.player == m) with
      | some i => doDrop s i
      | none => (false, s)
    | _ => (false, s)

/-- The initial session state: pick 1, nobody drafted, empty team
(`SuperflexDraftManager.__init__` before any operation). -/
def initState (pool : List PoolPlayer) (r : Roster) : DraftState :=
  { players := pool
    draftedPlayers := []
    myTeam := []
    currentPick := 1
    roster := r }

/-- States reachable from an initial state by the `draft_player` and
`undo_last_pick` operations (failed calls included: they return the
unchanged state). -/
inductive ReachableDU : DraftState → Prop
  | init (pool : List PoolPlayer) (r : Roster) : ReachableDU (initState pool r)
  | draft (fz : String → List PoolPlayer → Option PoolPlayer)
      (input team : String) (s : DraftState) :
      ReachableDU s → ReachableDU (draftPlayer fz s input team).2
  | undo (s : DraftState) : ReachableDU s → ReachableDU (undoLastPick s).2

/-- `RosterSlotManager.get_needs_analysis`: partition of the empty slot
names into critical (starting non-flex), important (FLEX/OP) and depth
(bench), in roster order. -/
structure NeedsAnalysis where
  critical : List String
  important : List String
  depth : List String
deriving DecidableEq, Repr

/-- Compute the needs analysis from the roster. -/
def getNeedsAnalysis (r : Roster) : NeedsAnalysis :=
  { critical := (r.filter fun kv => kv.2.isNone && !startsWithStr kv.1 "BENCH"
      && !(startsWithStr kv.1 "FLEX" || startsWithStr kv.1 "OP")).map Prod.fst
    important := (r.filter fun kv => kv.2.isNone && !startsWithStr kv.1 "BENCH"
      && (startsWithStr kv.1 "FLEX" || startsWithStr kv.1 "OP")).map Prod.fst
    depth := (r.filter fun kv =>
      kv.2.isNone && startsWithStr kv.1 "BENCH").map Prod.fst }

/-- The six canonical position keys of
`RosterSlotManager.get_position_summary`. -/
def canonicalPositions : List String := ["QB", "RB", "WR", "TE", "K", "D/ST"]

/-- The `total` count of `get_position_summary` for one position:
occupied slots whose occupant's (defense-normalized) position equals
`pos`; positions outside the summary table count 0. -/
def summaryTotal (r : Roster) (pos : String) : Nat :=
  if pos ∈ canonicalPositions then
    r.countP fun kv =>
      match kv.2 with
      | some o => normalizePos o.position == pos
      | none => false
  else 0

/-- League-aware positional targets of
`_balance_position_recommendations` (QB target raised when the league
has a QB-eligible flex slot; K and D/ST target 0 when not in the
league). -/
def positionTargets (hasQbFlex : Bool) (eligible : List String) :
    List (String × Nat) :=
  [("QB", if hasQbFlex then 3 else 2), ("RB", 6), ("WR", 7), ("TE", 2),
    ("K", if "K" ∈ eligible then 1 else 0),
    ("D/ST", if "D/ST" ∈ eligible then 1 else 0)]

/-- Positions saturated for recommendation balancing: target 0 (not in
league) or roster count at/above target. -/
def saturatedPositions (hasQbFlex : Bool) (eligible : List String)
    (r : Roster) : List String :=
  ((positionTargets hasQbFlex eligible).filter fun t =>
    decide (t.2 = 0 ∨ t.2 ≤ summaryTotal r t.1)).map Prod.fst

/-- `max_saturated_recs = 1 if needs["critical"] else 2`. -/
def maxSaturatedRecs (r : Roster) : Nat :=
  if (getNeedsAnalysis r).critical = [] then 2 else 1

/-- A row of the (already score-sorted) recommendation DataFrame handed
to `_balance_position_recommendations`; only the `position` column is
consulted by the balancing walk. -/
structure RecRow where
  player : String
  position : String
deriving DecidableEq, Repr

/-- `saturated_count.get(pos, 0)`. -/
def getCount : List (String × Nat) → String → Nat
  | [], _ => 0
  | q :: rest, p => if q.1 = p then q.2 else getCount rest p

/-- `saturated_count[pos] = n` (dict assignment). -/
def setCount : List (String × Nat) → String → Nat → List (String × Nat)
  | [], p, n => [(p, n)]
  | q :: rest, p, n => if q.1 = p then (q.1, n) :: rest else q :: setCount rest p n

/-- The walk of `_balance_position_recommendations`: emit each candidate
unless its (defense-normalized) position is saturated and has already
appeared `maxSat` times; break as soon as `num` entries are emitted. -/
def balanceGo (satPos : List String) (maxSat num : Nat) :
    List RecRow → List (String × Nat) → List RecRow → List RecRow
  | [], _, acc => acc
  | row :: rest, counts, acc =>
    let p := normalizePos row.position
    if p ∈ satPos then
      let c := getCount counts p
      if maxSat ≤ c then balanceGo satPos maxSat num rest counts acc
      else
        let acc' := acc ++ [row]
        if num ≤ acc'.length then acc'
        else balanceGo satPos maxSat num rest (setCount counts p (c + 1)) acc'
    else
      let acc' := acc ++ [row]
      if num ≤ acc'.length then acc'
      else balanceGo satPos maxSat num rest counts acc'

/-- `_balance_position_recommendations` (league-aware variant),
starting from an empty output list and empty saturation counter. -/
def balanceRecs (hasQbFlex : Bool) (eligible : List String) (r : Roster)
    (dfRec : List RecRow) (num : Nat) : List RecRow :=
  balanceGo (saturatedPositions hasQbFlex eligible r) (maxSaturatedRecs r)
    num dfRec [] []

/-- Occurrences of (defense-normalized) position `pos` in a
recommendation list. -/
def countRecPos (l : List RecRow) (pos : String) : Nat :=
  l.countP fun row => normalizePos row.position == pos

/-- `get_qb_value_multiplier`: 1.5 in a QB-flex league, else 1.0. -/
def qbValueMultiplier (hasQbFlex : Bool) : ℚ :=
  if hasQbFlex then 3 / 2 else 1

/-- `adjust_league_aware_adp` inside
`LeagueAwareDraftManager.load_and_adjust_adp`: positions filtered from
the league pushed to 999; non-QB rows shifted by 5 in a QB-flex league;
QB rows tier-compressed in a QB-flex league and clamped to
`max(1, min(new, orig))`. -/
def adjustLeagueAwareAdp (eligible : List String) (hasQbFlex : Bool)
    (position : String) (adpStandard : ℚ) : ℚ :=
  if position ∉ eligible then 999
  else if position ≠ "QB" then
    adpStandard + (if 1 < qbValueMultiplier hasQbFlex then 5 else 0)
  else
    let newAdp :=
      if 1 < qbValueMultiplier hasQbFlex then
        if adpStandard ≤ 50 then adpStandard * (3 / 10)
        else if adpStandard ≤ 80 then adpStandard * (1 / 2)
        else adpStandard * (7 / 10)
      else adpStandard
    max 1 (min newAdp adpStandard)

/-- A JSON value stored under a roster slot key in the persisted state
file: `null`, an occupant object, or (defensively handled by
`load_draft_state`) a raw string. -/
inductive JsonSlot where
  | null : JsonSlot
  | occupied (o : Occupant) : JsonSlot
  | raw (str : String) : JsonSlot
deriving DecidableEq, Repr

/-- The JSON-serializable snapshot object written by
`save_draft_state`: the `draft_progress` keys and the `roster_state`
roster map (every slot key is present; an empty slot is stored as an
explicit `null`, never dropped). The `timestamp`, `league_info` and
`roster_config` keys are informational and not restored by
`load_draft_state`, so they are not modelled. -/
structure SavedState where
  current_pick : Int
  drafted_players : List String
  my_team : List TeamEntry
  roster : List (String × JsonSlot)
deriving DecidableEq, Repr

/-- Serialize one roster slot value: `None` becomes an explicit JSON
`null` under the slot's key. -/
def slotToJson : Option Occupant → JsonSlot
  | none => JsonSlot.null
  | some o => JsonSlot.occupied o

/-- `save_draft_state`: build the snapshot object from the session. -/
def saveDraftState (s : DraftState) : SavedState :=
  { current_pick := s.currentPick
    drafted_players := s.draftedPlayers
    my_team := s.myTeam
    roster := s.roster.map fun kv => (kv.1, slotToJson kv.2) }

/-- Decode one roster slot value on load. `load_draft_state` maps the
literal strings `"null"` and `"None"` back to `None`; any other raw
string is not an occupant object (the Python code would leave an
untyped value in the slot), modelled as a decode failure — unreachable
from `saveDraftState` output. -/
def loadSlot : JsonSlot → Option (Option Occupant)
  | JsonSlot.null => some none
  | JsonSlot.occupied o => some (some o)
  | JsonSlot.raw str => if str = "null" ∨ str = "None" then some none else none

/-- Decode the whole persisted roster map in order. -/
def loadRoster : List (String × JsonSlot) → Option Roster
  | [] => some []
  | kv :: rest =>
    match loadSlot kv.2, loadRoster rest with
    | some v, some r => some ((kv.1, v) :: r)
    | _, _ => none

/-- `load_draft_state`: restore `current_pick`, `drafted_players`,
`my_team` and the roster map into the session `s`. -/
def loadDraftState (sv : SavedState) (s : DraftState) : Option DraftState :=
  match loadRoster sv.roster with
  | none => none
  | some r =>
    some
      { s with
        currentPick := sv.current_pick
        draftedPlayers := sv.drafted_players
        myTeam := sv.my_team
        roster := r }

/-! ## Helper lemmas -/

/-- Appending a name that was not yet drafted and then removing it again
(`drafted_players.append` undone by `drafted_players.remove`) is the
identity. -/
theorem erase_append_self {l : List String} {a : String} (h : a ∉ l) :
    (l ++ [a]).erase a = l := by
  rw [List.erase_append_right _ h, List.erase_cons_head, List.append_nil]

/-- Saving and re-decoding a roster map is the identity. -/
theorem loadRoster_map_slotToJson (r : Roster) :
    loadRoster (r.map fun kv => (kv.1, slotToJson kv.2)) = some r := by
  induction r with
  | nil => rfl
  | cons kv rest ih =>
    obtain ⟨k, v⟩ := kv
    simp only [List.map_cons, loadRoster, ih]
    cases v <;> rfl

/-! ## C2 -/

/-- C2: saving and then loading restores an identical state
(`load(save(state)) == state` on the persisted fields), the saved
roster map keeps every slot key, and an empty slot is serialized as an
explicit null sentinel under its key rather than a missing key. -/
theorem c2_save_load_round_trip :
    (∀ s : DraftState, loadDraftState (saveDraftState s) s = some s) ∧
    (∀ s : DraftState,
      (saveDraftState s).roster.map Prod.fst = s.roster.map Prod.fst) ∧
    (∀ (s : DraftState) (k : String),
      (k, (none : Option Occupant)) ∈ s.roster →
      (k, JsonSlot.null) ∈ (saveDraftState s).roster) := by
  refine ⟨fun s => ?_, fun s => ?_, fun s k hk => ?_⟩
  · simp [loadDraftState, saveDraftState, loadRoster_map_slotToJson]
  · simp [saveDraftState]
  · exact List.mem_map.mpr ⟨(k, none), hk, rfl⟩

/-- A fuzzy matcher that never matches (resolution then relies on the
exact-match path only). -/
def fzNone : String → List PoolPlayer → Option PoolPlayer := fun _ _ => none

/-- A close-match list that is always empty (drop resolution then relies
on the exact-match path only). -/
def dfzNone : String → List String → List String := fun _ _ => []

/-- A two-player pool used by the concrete witnesses. -/
def demoPool : List PoolPlayer :=
  [⟨"Josh Allen", "QB"⟩, ⟨"Bijan Robinson", "RB"⟩]

/-- A session state with one filled and one empty roster slot. -/
def demoState1 : DraftState :=
  (draftPlayer fzNone (initState demoPool (initRoster defaultRosterConfig))
    "josh allen" "my_team").2

/-- C2 witness: the round trip and the null sentinel at the concrete
state reached by drafting Josh Allen (roster has a filled QB slot and
an empty RB1 slot). -/
theorem c2_save_load_round_trip_witness :
    loadDraftState (saveDraftState demoState1) demoState1 = some demoState1 ∧
    ("RB1", (none : Option Occupant)) ∈ demoState1.roster ∧
    ("RB1", JsonSlot.null) ∈ (saveDraftState demoState1).roster :=
  ⟨c2_save_load_round_trip.1 demoState1, by decide,
    c2_save_load_round_trip.2.2 demoState1 "RB1" (by decide)⟩

/-! ## C5 -/

/-- C5 counterexample: name resolution inside `draft_player` matches
against the full pool, which is not filtered by drafted status — here
the input resolves (by the exact-match path, before any fuzzy logic) to
the pool entry "Josh Allen" even though that name is already in
`drafted_players`. -/
theorem c5_counterexample :
    resolveInput fzNone demoState1.players "josh allen" =
      some ⟨"Josh Allen", "QB"⟩ ∧
    "Josh Allen" ∈ demoState1.draftedPlayers := by decide

/-- C5 (amended): an entry already in `draftedPlayers` is still
matchable by resolution, but `draft_player` then rejects the pick with
no state change, for every input, team and fuzzy matcher. -/
theorem c5_drafted_rejected
    (fz : String → List PoolPlayer → Option PoolPlayer)
    (s : DraftState) (input team : String) (p : PoolPlayer)
    (hres : resolveInput fz s.players input = some p)
    (hd : p.player ∈ s.draftedPlayers) :
    draftPlayer fz s input team = (false, s) := by
  unfold draftPlayer
  rw [hres]
  simp [hd]

/-- C5 witness: re-drafting the already-drafted "Josh Allen" is
rejected with the state unchanged. -/
theorem c5_drafted_rejected_witness :
    draftPlayer fzNone demoState1 "Josh Allen" "my_team" =
      (false, demoState1) :=
  c5_drafted_rejected fzNone demoState1 "Josh Allen" "my_team"
    ⟨"Josh Allen", "QB"⟩ (by decide) (by decide)

/-! ## C6 -/

/-- C6 counterexample: for a QB row with `adpStandard = 1/2` in a
QB-flex league the clamp `max(1, ..)` raises the adjusted ADP to 1,
which is *worse* than the unadjusted 1/2; and in a non-QB-flex league
the same row is changed (to 1) rather than left unchanged. -/
theorem c6_counterexample :
    adjustLeagueAwareAdp ["QB"] true "QB" (1 / 2) = 1 ∧
    ¬adjustLeagueAwareAdp ["QB"] true "QB" (1 / 2) ≤ 1 / 2 ∧
    ¬adjustLeagueAwareAdp ["QB"] false "QB" (1 / 2) = 1 / 2 := by
  norm_num [adjustLeagueAwareAdp, qbValueMultiplier]

/-- C6 (amended): for every QB row with `adpStandard ≥ 1` (ADP ranks
start at 1): in a QB-flex league the adjusted ADP equals
`max(1, min(compressed, adpStandard))` with the tiered compression
factors 0.3 / 0.5 / 0.7, and never exceeds the unadjusted value; in a
non-QB-flex league the ADP is unchanged. -/
theorem c6_qb_adp_adjustment (eligible : List String) (adp : ℚ)
    (helig : "QB" ∈ eligible) (h1 : 1 ≤ adp) :
    adjustLeagueAwareAdp eligible true "QB" adp =
      max 1 (min (if adp ≤ 50 then adp * (3 / 10)
        else if adp ≤ 80 then adp * (1 / 2) else adp * (7 / 10)) adp) ∧
    adjustLeagueAwareAdp eligible true "QB" adp ≤ adp ∧
    adjustLeagueAwareAdp eligible false "QB" adp = adp := by
  have hne : ¬("QB" ∉ eligible) := not_not.mpr helig
  have heq : adjustLeagueAwareAdp eligible true "QB" adp =
      max 1 (min (if adp ≤ 50 then adp * (3 / 10)
        else if adp ≤ 80 then adp * (1 / 2) else adp * (7 / 10)) adp) := by
    unfold adjustLeagueAwareAdp
    rw [if_neg hne, if_neg (by simp)]
    norm_num [qbValueMultiplier]
  refine ⟨heq, ?_, ?_⟩
  · rw [heq]
    exact max_le h1 (min_le_right _ _)
  · unfold adjustLeagueAwareAdp
    rw [if_neg hne, if_neg (by simp)]
    norm_num [qbValueMultiplier]
    exact h1

/-- C6 witness: the amended statement at the concrete QB row with
`adpStandard = 40` in a QB-flex league with the default positions. -/
theorem c6_qb_adp_adjustment_witness :
    ("QB" ∈ ["QB", "RB", "WR", "TE"] ∧ (1 : ℚ) ≤ 40) ∧
    (adjustLeagueAwareAdp ["QB", "RB", "WR", "TE"] true "QB" 40 =
      max 1 (min (if (40 : ℚ) ≤ 50 then 40 * (3 / 10)
        else if (40 : ℚ) ≤ 80 then 40 * (1 / 2) else 40 * (7 / 10)) 40) ∧
    adjustLeagueAwareAdp ["QB", "RB", "WR", "TE"] true "QB" 40 ≤ 40 ∧
    adjustLeagueAwareAdp ["QB", "RB", "WR", "TE"] false "QB" 40 = 40) :=
  ⟨⟨by decide, by norm_num⟩,
    c6_qb_adp_adjustment ["QB", "RB", "WR", "TE"] 40 (by decide) (by norm_num)⟩

/-! ## C10 -/

/-- C10: a successful `draft_player` call for a team other than
`"my_team"` leaves `my_team` and every roster slot unchanged; its only
state changes are appending the resolved player's name to
`drafted_players` and advancing `current_pick` by exactly 1. -/
theorem c10_other_team_frame
    (fz : String → List PoolPlayer → Option PoolPlayer)
    (s s' : DraftState) (input team : String)
    (hteam : team ≠ "my_team")
    (h : draftPlayer fz s input team = (true, s')) :
    s'.myTeam = s.myTeam ∧ s'.roster = s.roster ∧
    s'.currentPick = s.currentPick + 1 ∧
    ∃ p, resolveInput fz s.players input = some p ∧
      s'.draftedPlayers = s.draftedPlayers ++ [p.player] := by
  unfold draftPlayer at h
  split at h
  next => simp at h
  next p hres =>
    dsimp only at h
    rw [if_neg hteam] at h
    split at h
    next hd => simp at h
    next hd =>
      injection h with h1 h2
      subst h2
      exact ⟨rfl, rfl, rfl, p, hres, rfl⟩

/-- The state after an opponent drafts Bijan Robinson out of
`demoState1`. -/
def demoState2 : DraftState :=
  (draftPlayer fzNone demoState1 "Bijan Robinson" "other").2

/-- C10 witness: the frame condition at the concrete opponent pick of
Bijan Robinson. -/
theorem c10_other_team_frame_witness :
    demoState2.myTeam = demoState1.myTeam ∧
    demoState2.roster = demoState1.roster ∧
    demoState2.currentPick = demoState1.currentPick + 1 ∧
    ∃ p, resolveInput fzNone demoState1.players "Bijan Robinson" = some p ∧
      demoState2.draftedPlayers = demoState1.draftedPlayers ++ [p.player] :=
  c10_other_team_frame fzNone demoState1 demoState2 "Bijan Robinson" "other"
    (by decide) (by decide)

/-! ## C9 -/

/-- What a successful `draft_player` call guarantees: the pool is
untouched and the resolved name, previously undrafted, is now in
`drafted_players`. -/
theorem draft_success_spec
    (fz : String → List PoolPlayer → Option PoolPlayer)
    (s s' : DraftState) (input team : String)
    (h : draftPlayer fz s input team = (true, s')) :
    s'.players = s.players ∧
    ∃ p, resolveInput fz s.players input = some p ∧
      p.player ∉ s.draftedPlayers ∧ p.player ∈ s'.draftedPlayers := by
  unfold draftPlayer at h
  split at h
  next => simp at h
  next p hres =>
    dsimp only at h
    split at h
    next hd => simp at h
    next hd =>
      by_cases ht : team = "my_team"
      · rw [if_pos ht] at h
        cases hadd : addPlayer s.roster p.player (normalizePos p.position)
            s.currentPick with
        | none => rw [hadd] at h; simp at h
        | some pr =>
          obtain ⟨slot, r'⟩ := pr
          rw [hadd] at h
          dsimp only at h
          injection h with h1 h2
          subst h2
          exact ⟨rfl, p, hres, hd, by simp⟩
      · rw [if_neg ht] at h
        injection h with h1 h2
        subst h2
        exact ⟨rfl, p, hres, hd, by simp⟩

/-- C9: after a successful `draft_player` call, calling it again with
the same input (and any team) is a rejected no-op: the state is
returned unchanged. -/
theorem c9_draft_idempotent
    (fz : String → List PoolPlayer → Option PoolPlayer)
    (s s' : DraftState) (input team team2 : String)
    (h : draftPlayer fz s input team = (true, s')) :
    draftPlayer fz s' input team2 = (false, s') := by
  obtain ⟨hpl, p, hres, -, hmem⟩ := draft_success_spec fz s s' input team h
  unfold draftPlayer
  rw [hpl, hres]
  dsimp only
  rw [if_pos hmem]

/-- C9 witness: drafting "josh allen" twice from the fresh session; the
second call is rejected with the state unchanged. -/
theorem c9_draft_idempotent_witness :
    draftPlayer fzNone demoState1 "josh allen" "my_team" =
      (false, demoState1) :=
  c9_draft_idempotent fzNone
    (initState demoPool (initRoster defaultRosterConfig)) demoState1
    "josh allen" "my_team" "my_team" (by decide)

/-! ## C4 -/

/-- A fully occupied roster has no empty slot of any type. -/
theorem findEmptySlot_none_of_full (r : Roster) (t : String)
    (hfull : ∀ kv ∈ r, kv.2 ≠ none) : findEmptySlot r t = none := by
  induction r with
  | nil => rfl
  | cons kv rest ih =>
    obtain ⟨k, v⟩ := kv
    unfold findEmptySlot
    rw [if_neg fun hc => hfull (k, v) (by simp) hc.2]
    exact ih fun kv hkv => hfull kv (List.mem_cons_of_mem _ hkv)

/-- `add_player` returns the "no slot" sentinel on a full roster. -/
theorem addPlayerGo_none_of_full (r : Roster) (nm pos : String) (pk : Int)
    (hfull : ∀ kv ∈ r, kv.2 ≠ none) (ts : List String) :
    addPlayerGo r nm pos pk ts = none := by
  induction ts with
  | nil =>
    unfold addPlayerGo
    rw [findEmptySlot_none_of_full r _ hfull]
  | cons t ts ih =>
    unfold addPlayerGo
    rw [findEmptySlot_none_of_full r _ hfull]
    exact ih

/-- C4: with every roster slot occupied, drafting any resolvable
not-yet-drafted player to my team is rejected atomically: the call
returns the failure flag and the entire state — `draftedPlayers`,
`myTeam`, `currentPick` and all roster slots — is unchanged. -/
theorem c4_roster_full_rejection
    (fz : String → List PoolPlayer → Option PoolPlayer)
    (s : DraftState) (input : String) (p : PoolPlayer)
    (hres : resolveInput fz s.players input = some p)
    (hnd : p.player ∉ s.draftedPlayers)
    (hfull : ∀ kv ∈ s.roster, kv.2 ≠ none) :
    draftPlayer fz s input "my_team" = (false, s) := by
  unfold draftPlayer
  rw [hres]
  dsimp only
  rw [if_neg hnd, if_pos rfl]
  rw [show addPlayer s.roster p.player (normalizePos p.position)
      s.currentPick = none from
    addPlayerGo_none_of_full s.roster _ _ _ hfull _]
  dsimp only
  rw [erase_append_self hnd]

/-- A session whose roster (a one-slot league) is completely full. -/
def fullState : DraftState :=
  { players := demoPool
    draftedPlayers := ["Josh Allen"]
    myTeam := [⟨"Josh Allen", "QB", 1, "QB"⟩]
    currentPick := 2
    roster := [("QB", some ⟨"Josh Allen", "QB", 1, "QB"⟩)] }

/-- C4 witness: drafting the resolvable, undrafted Bijan Robinson into
the full roster is rejected with the state unchanged. -/
theorem c4_roster_full_rejection_witness :
    draftPlayer fzNone fullState "Bijan Robinson" "my_team" =
      (false, fullState) :=
  c4_roster_full_rejection fzNone fullState "Bijan Robinson"
    ⟨"Bijan Robinson", "RB"⟩ (by decide) (by decide) (by decide)

/-! ## C3 -/

/-- Setting a slot key that is not in the roster changes nothing. -/
theorem setSlot_not_mem (r : Roster) (k : String) (v : Option Occupant)
    (h : k ∉ r.map Prod.fst) : setSlot r k v = r := by
  induction r with
  | nil => rfl
  | cons kv rest ih =>
    simp only [List.map_cons, List.mem_cons, not_or] at h
    show (if kv.1 = k then (kv.1, v) else kv) :: setSlot rest k v = kv :: rest
    rw [if_neg fun hc => h.1 hc.symm, ih h.2]

/-- Writing back the value a (key-unique) slot already holds changes
nothing. -/
theorem setSlot_mem_self (r : Roster) (k : String) (v : Option Occupant)
    (hmem : (k, v) ∈ r) (hnd : (r.map Prod.fst).Nodup) : setSlot r k v = r := by
  induction r with
  | nil => cases hmem
  | cons kv rest ih =>
    simp only [List.map_cons, List.nodup_cons] at hnd
    rcases List.mem_cons.mp hmem with heq | hmemr
    · subst heq
      show (if k = k then (k, v) else (k, v)) :: setSlot rest k v = (k, v) :: rest
      rw [if_pos rfl, setSlot_not_mem rest k v hnd.1]
    · show (if kv.1 = k then (kv.1, v) else kv) :: setSlot rest k v = kv :: rest
      rw [if_neg fun hc =>
          hnd.1 (by rw [hc]; exact List.mem_map.mpr ⟨(k, v), hmemr, rfl⟩),
        ih hmemr hnd.2]

/-- Overwriting the same slot twice keeps only the second write. -/
theorem setSlot_setSlot (r : Roster) (k : String) (v v' : Option Occupant) :
    setSlot (setSlot r k v) k v' = setSlot r k v' := by
  induction r with
  | nil => rfl
  | cons kv rest ih =>
    by_cases hc : kv.1 = k <;> simp [setSlot, hc] <;>
      simpa [setSlot] using ih

/-- The slot found by the scan is present and empty in the roster. -/
theorem findEmptySlot_some_mem (r : Roster) (t k : String)
    (h : findEmptySlot r t = some k) : (k, none) ∈ r := by
  induction r with
  | nil => cases h
  | cons kv rest ih =>
    obtain ⟨k₀, v₀⟩ := kv
    unfold findEmptySlot at h
    by_cases hc : startsWithStr k₀ t = true ∧ v₀ = none
    · rw [if_pos hc] at h
      injection h with h
      subst h
      rw [hc.2]
      exact List.mem_cons_self _ _
    · rw [if_neg hc] at h
      exact List.mem_cons_of_mem _ (ih h)

/-- A successful `add_player` fills exactly the returned slot, which was
present and empty before. -/
theorem addPlayerGo_some_spec (r : Roster) (nm pos : String) (pk : Int)
    (ts : List String) (slot : String) (r' : Roster)
    (h : addPlayerGo r nm pos pk ts = some (slot, r')) :
    (slot, none) ∈ r ∧ r' = setSlot r slot (some ⟨nm, pos, pk, slot⟩) := by
  induction ts with
  | nil =>
    unfold addPlayerGo at h
    cases hf : findEmptySlot r "BENCH" with
    | none => rw [hf] at h; cases h
    | some k =>
      rw [hf] at h
      dsimp only at h
      injection h with h
      injection h with hk hr
      subst hk
      exact ⟨findEmptySlot_some_mem r _ _ hf, hr.symm⟩
  | cons t ts ih =>
    unfold addPlayerGo at h
    cases hf : findEmptySlot r t with
    | none => rw [hf] at h; exact ih h
    | some k =>
      rw [hf] at h
      dsimp only at h
      injection h with h
      injection h with hk hr
      subst hk
      exact ⟨findEmptySlot_some_mem r _ _ hf, hr.symm⟩

/-- C3: (1) undoing immediately after a successful `draft_player` to my
team restores `draftedPlayers`, `myTeam`, `currentPick` and the filled
roster slot to their exact pre-pick values (for any roster whose slot
keys are distinct and non-empty, as built by the initializer); (2) undo
with an empty team fails with no state change; (3) undo when the most
recent `my_team` entry's pick number is not `currentPick - 1` fails
with no state change. -/
theorem c3_undo_inverse :
    (∀ (fz : String → List PoolPlayer → Option PoolPlayer)
      (s s' : DraftState) (input : String),
      (s.roster.map Prod.fst).Nodup → "" ∉ s.roster.map Prod.fst →
      draftPlayer fz s input "my_team" = (true, s') →
      undoLastPick s' = (true, s)) ∧
    (∀ s : DraftState, s.myTeam = [] → undoLastPick s = (false, s)) ∧
    (∀ (s : DraftState) (e : TeamEntry), s.myTeam.getLast? = some e →
      e.pick ≠ s.currentPick - 1 → undoLastPick s = (false, s)) := by
  refine ⟨fun fz s s' input hnd hne h => ?_, fun s h0 => ?_, fun s e hlast hpk => ?_⟩
  · unfold draftPlayer at h
    split at h
    next => simp at h
    next p hres =>
      dsimp only at h
      split at h
      next hd => simp at h
      next hd =>
        rw [if_pos rfl] at h
        cases hadd : addPlayer s.roster p.player (normalizePos p.position)
            s.currentPick with
        | none => rw [hadd] at h; simp at h
        | some pr =>
          obtain ⟨slot, r'⟩ := pr
          rw [hadd] at h
          dsimp only at h
          injection h with h1 h2
          subst h2
          obtain ⟨hmem, hr'⟩ := addPlayerGo_some_spec s.roster p.player
            (normalizePos p.position) s.currentPick _ slot r' hadd
          subst hr'
          have hkey : slot ∈ s.roster.map Prod.fst :=
            List.mem_map.mpr ⟨(slot, none), hmem, rfl⟩
          have hslotne : slot ≠ "" := fun hc => hne (hc ▸ hkey)
          unfold undoLastPick
          dsimp only
          rw [List.getLast?_concat]
          dsimp only
          rw [if_pos (by omega)]
          rw [if_pos ⟨hslotne, List.any_eq_true.mpr
            ⟨(slot, some ⟨p.player, normalizePos p.position, s.currentPick, slot⟩),
              List.mem_map.mpr ⟨(slot, none), hmem, by simp⟩, by simp⟩⟩]
          rw [setSlot_setSlot, setSlot_mem_self s.roster slot none hmem hnd,
            List.dropLast_concat, erase_append_self hd]
          have hpick : s.currentPick + 1 - 1 = s.currentPick := by omega
          rw [hpick]
  · unfold undoLastPick
    rw [h0]
    rfl
  · unfold undoLastPick
    rw [hlast]
    dsimp only
    rw [if_neg hpk]

/-- A session state whose pick counter has moved past the team's last
recorded pick (undo is then illegal). -/
def mismatchState : DraftState := { demoState1 with currentPick := 7 }

/-- C3 witness: undo right after drafting Josh Allen restores the fresh
session exactly; undo on the fresh session fails; undo when the last
recorded pick is stale fails. -/
theorem c3_undo_inverse_witness :
    undoLastPick demoState1 =
      (true, initState demoPool (initRoster defaultRosterConfig)) ∧
    undoLastPick (initState demoPool (initRoster defaultRosterConfig)) =
      (false, initState demoPool (initRoster defaultRosterConfig)) ∧
    undoLastPick mismatchState = (false, mismatchState) :=
  ⟨c3_undo_inverse.1 fzNone
      (initState demoPool (initRoster defaultRosterConfig)) demoState1
      "josh allen" (by decide) (by decide) (by decide),
    c3_undo_inverse.2.1 _ rfl,
    c3_undo_inverse.2.2 mismatchState ⟨"Josh Allen", "QB", 1, "QB"⟩
      (by decide) (by decide)⟩

/-! ## C7 -/

/-- Reading a counter after an update. -/
theorem getCount_setCount (l : List (String × Nat)) (p p' : String) (n : Nat) :
    getCount (setCount l p n) p' = if p' = p then n else getCount l p' := by
  induction l with
  | nil =>
    by_cases h : p' = p
    · subst h; simp [setCount, getCount]
    · have h2 : ¬p = p' := fun hc => h hc.symm
      simp [setCount, getCount, h, h2]
  | cons q rest ih =>
    by_cases hq : q.1 = p
    · by_cases h : p' = p
      · subst h; simp [setCount, getCount, hq]
      · have h2 : ¬p = p' := fun hc => h hc.symm
        have h3 : ¬q.1 = p' := fun hc => h2 (by rw [← hq]; exact hc)
        simp [setCount, getCount, hq, h, h2, h3]
    · by_cases h : q.1 = p'
      · have h2 : ¬p' = p := fun hc => hq (by rw [h, hc])
        simp [setCount, getCount, hq, h, h2]
      · simp [setCount, getCount, hq, h, ih]

/-- Appending one recommendation changes exactly its own position's
count. -/
theorem countRecPos_append (acc : List RecRow) (row : RecRow) (p : String) :
    countRecPos (acc ++ [row]) p =
      countRecPos acc p + (if normalizePos row.position = p then 1 else 0) := by
  by_cases h : normalizePos row.position = p <;>
    simp [countRecPos, List.countP_append, List.countP_cons, h]

/-- Invariant of the balancing walk: while the per-position counter
agrees with the occurrences already emitted and stays within the cap,
every saturated position stays within the cap in the final output. -/
theorem balanceGo_count_bound (satPos : List String) (maxSat num : Nat)
    (recs : List RecRow) :
    ∀ (counts : List (String × Nat)) (acc : List RecRow),
      (∀ p ∈ satPos,
        countRecPos acc p = getCount counts p ∧ getCount counts p ≤ maxSat) →
      ∀ p ∈ satPos,
        countRecPos (balanceGo satPos maxSat num recs counts acc) p ≤ maxSat := by
  induction recs with
  | nil =>
    intro counts acc hinv p hp
    exact (hinv p hp).1 ▸ (hinv p hp).2
  | cons row rest ih =>
    intro counts acc hinv p hp
    unfold balanceGo
    dsimp only
    by_cases hqs : normalizePos row.position ∈ satPos
    · rw [if_pos hqs]
      by_cases hc : maxSat ≤ getCount counts (normalizePos row.position)
      · rw [if_pos hc]
        exact ih counts acc hinv p hp
      · rw [if_neg hc]
        have hinv' : ∀ p' ∈ satPos,
            countRecPos (acc ++ [row]) p' =
              getCount (setCount counts (normalizePos row.position)
                (getCount counts (normalizePos row.position) + 1)) p' ∧
            getCount (setCount counts (normalizePos row.position)
                (getCount counts (normalizePos row.position) + 1)) p' ≤ maxSat := by
          intro p' hp'
          rw [getCount_setCount, countRecPos_append]
          by_cases hpq : p' = normalizePos row.position
          · rw [if_pos hpq, if_pos hpq.symm, (hinv p' hp').1, hpq]
            exact ⟨rfl, by omega⟩
          · rw [if_neg hpq, if_neg fun hc' => hpq hc'.symm]
            simpa using hinv p' hp'
        by_cases hlen : num ≤ (acc ++ [row]).length
        · rw [if_pos hlen]
          exact ((hinv' p hp).1 ▸ (hinv' p hp).2)
        · rw [if_neg hlen]
          exact ih _ _ hinv' p hp
    · rw [if_neg hqs]
      have hinv' : ∀ p' ∈ satPos,
          countRecPos (acc ++ [row]) p' = getCount counts p' ∧
          getCount counts p' ≤ maxSat := by
        intro p' hp'
        rw [countRecPos_append,
          if_neg (fun hc' : normalizePos row.position = p' =>
            hqs (by rw [hc']; exact hp'))]
        simpa using hinv p' hp'
      by_cases hlen : num ≤ (acc ++ [row]).length
      · rw [if_pos hlen]
        exact ((hinv' p hp).1 ▸ (hinv' p hp).2)
      · rw [if_neg hlen]
        exact ih _ _ hinv' p hp

/-- C7: in every recommendation list assembled by the saturation
balancing pass, a saturated position (roster count at or above its
league-aware target, or target 0) appears at most `maxSaturatedRecs`
times, where `maxSaturatedRecs` is 1 when any critical need remains and
2 otherwise. -/
theorem c7_saturation_bound (hasQbFlex : Bool) (eligible : List String)
    (r : Roster) (dfRec : List RecRow) (num : Nat) (pos : String)
    (hsat : pos ∈ saturatedPositions hasQbFlex eligible r) :
    countRecPos (balanceRecs hasQbFlex eligible r dfRec num) pos ≤
      maxSaturatedRecs r :=
  balanceGo_count_bound (saturatedPositions hasQbFlex eligible r)
    (maxSaturatedRecs r) num dfRec [] []
    (fun _ _ => ⟨rfl, Nat.zero_le _⟩) pos hsat

/-- A roster with the RB target (6) reached and one unfilled critical
WR slot. -/
def c7Roster : Roster :=
  [("QB", some ⟨"QB Starter", "QB", 1, "QB"⟩),
    ("RB1", some ⟨"RB One", "RB", 2, "RB1"⟩),
    ("RB2", some ⟨"RB Two", "RB", 3, "RB2"⟩),
    ("WR1", none),
    ("WR2", some ⟨"WR Two", "WR", 4, "WR2"⟩),
    ("TE", some ⟨"TE One", "TE", 5, "TE"⟩),
    ("FLEX1", some ⟨"RB Three", "RB", 6, "FLEX1"⟩),
    ("FLEX2", some ⟨"RB Four", "RB", 7, "FLEX2"⟩),
    ("OP", some ⟨"QB Backup", "QB", 8, "OP"⟩),
    ("BENCH1", some ⟨"RB Five", "RB", 9, "BENCH1"⟩),
    ("BENCH2", some ⟨"RB Six", "RB", 10, "BENCH2"⟩)]

/-- A score-sorted candidate list dominated by RBs. -/
def c7Recs : List RecRow :=
  [⟨"RB Cand A", "RB"⟩, ⟨"RB Cand B", "RB"⟩, ⟨"WR Cand A", "WR"⟩,
    ⟨"RB Cand C", "RB"⟩, ⟨"WR Cand B", "WR"⟩, ⟨"TE Cand A", "TE"⟩,
    ⟨"RB Cand D", "RB"⟩, ⟨"WR Cand C", "WR"⟩]

/-- C7 witness: with the RB target reached and the critical WR1 slot
open, a recommendation list of size 5 contains at most 1 RB
(`maxSaturatedRecs = 1` because a critical need remains). -/
theorem c7_saturation_bound_witness :
    "RB" ∈ saturatedPositions true canonicalPositions c7Roster ∧
    maxSaturatedRecs c7Roster = 1 ∧
    countRecPos (balanceRecs true canonicalPositions c7Roster c7Recs 5) "RB" ≤
      maxSaturatedRecs c7Roster :=
  ⟨by decide, by decide,
    c7_saturation_bound true canonicalPositions c7Roster c7Recs 5 "RB"
      (by decide)⟩

/-! ## C8 -/

/-- No empty slot of the roster has a name starting with `t`. -/
def NoEmptySlotMatching (r : Roster) (t : String) : Prop :=
  ∀ kv ∈ r, ¬(kv.2 = none ∧ startsWithStr kv.1 t = true)

/-- `slotName` is the *first* empty slot of the roster whose name
starts with `t`: the roster splits at an empty slot of that name, with
no earlier empty `t`-slot. -/
def IsFirstEmptyMatching (r : Roster) (t slotName : String) : Prop :=
  ∃ l₁ l₂, r = l₁ ++ (slotName, none) :: l₂ ∧
    startsWithStr slotName t = true ∧
    ∀ kv ∈ l₁, ¬(kv.2 = none ∧ startsWithStr kv.1 t = true)

/-- The scan returns exactly the first empty matching slot. -/
theorem findEmptySlot_some_first (r : Roster) (t slotName : String)
    (h : findEmptySlot r t = some slotName) :
    IsFirstEmptyMatching r t slotName := by
  induction r with
  | nil => cases h
  | cons kv rest ih =>
    obtain ⟨k, v⟩ := kv
    unfold findEmptySlot at h
    by_cases hc : startsWithStr k t = true ∧ v = none
    · rw [if_pos hc] at h
      injection h with h
      subst h
      exact ⟨[], rest, by rw [hc.2]; rfl, hc.1, by simp⟩
    · rw [if_neg hc] at h
      obtain ⟨l₁, l₂, heq, hsw, hall⟩ := ih h
      refine ⟨(k, v) :: l₁, l₂, by rw [heq]; rfl, hsw, ?_⟩
      intro kv hkv
      rcases List.mem_cons.mp hkv with rfl | hkv'
      · exact fun hx => hc ⟨hx.2, hx.1⟩
      · exact hall kv hkv'

/-- A failed scan means no empty matching slot exists at all. -/
theorem findEmptySlot_none_nomatch (r : Roster) (t : String)
    (h : findEmptySlot r t = none) : NoEmptySlotMatching r t := by
  induction r with
  | nil => exact fun kv hkv => absurd hkv (List.not_mem_nil kv)
  | cons kv rest ih =>
    obtain ⟨k, v⟩ := kv
    unfold findEmptySlot at h
    by_cases hc : startsWithStr k t = true ∧ v = none
    · rw [if_pos hc] at h; cases h
    · rw [if_neg hc] at h
      intro kv hkv
      rcases List.mem_cons.mp hkv with rfl | hkv'
      · exact fun hx => hc ⟨hx.2, hx.1⟩
      · exact ih h kv hkv'

/-- Characterization of the slot-type loop: the chosen slot is the
first empty slot of the earliest slot type (in the given order) that
has any empty slot, and the bench fallback fires only when no listed
type has an empty slot. -/
theorem addPlayerGo_spec (r : Roster) (nm pos : String) (pk : Int)
    (ts : List String) (slotName : String) (r' : Roster)
    (h : addPlayerGo r nm pos pk ts = some (slotName, r')) :
    r' = setSlot r slotName (some ⟨nm, pos, pk, slotName⟩) ∧
    ((∃ ts₁ t ts₂, ts = ts₁ ++ t :: ts₂ ∧
        IsFirstEmptyMatching r t slotName ∧
        ∀ t' ∈ ts₁, NoEmptySlotMatching r t') ∨
      ((∀ t ∈ ts, NoEmptySlotMatching r t) ∧
        IsFirstEmptyMatching r "BENCH" slotName)) := by
  induction ts with
  | nil =>
    unfold addPlayerGo at h
    cases hf : findEmptySlot r "BENCH" with
    | none => rw [hf] at h; cases h
    | some k =>
      rw [hf] at h
      dsimp only at h
      injection h with h
      injection h with hk hr
      subst hk
      exact ⟨hr.symm, Or.inr ⟨fun t ht => absurd ht (List.not_mem_nil t),
        findEmptySlot_some_first r _ _ hf⟩⟩
  | cons t ts ih =>
    unfold addPlayerGo at h
    cases hf : findEmptySlot r t with
    | none =>
      rw [hf] at h
      obtain ⟨hr, hcase⟩ := ih h
      refine ⟨hr, ?_⟩
      rcases hcase with ⟨ts₁, t₀, ts₂, hts, hfirst, hall⟩ | ⟨hnone, hbench⟩
      · refine Or.inl ⟨t :: ts₁, t₀, ts₂, by rw [hts]; rfl, hfirst, ?_⟩
        intro t' ht'
        rcases List.mem_cons.mp ht' with rfl | ht''
        · exact findEmptySlot_none_nomatch r t' hf
        · exact hall t' ht''
      · refine Or.inr ⟨?_, hbench⟩
        intro t' ht'
        rcases List.mem_cons.mp ht' with rfl | ht''
        · exact findEmptySlot_none_nomatch r t' hf
        · exact hnone t' ht''
    | some k =>
      rw [hf] at h
      dsimp only at h
      injection h with h
      injection h with hk hr
      subst hk
      exact ⟨hr.symm, Or.inl ⟨[], t, ts, rfl,
        findEmptySlot_some_first r _ _ hf, by simp⟩⟩

/-- C8: `add_player` fills the first empty slot whose type appears
earliest in the position's source eligibility order, scanning the
roster in order; the bench fallback is used only when no eligible slot
type has an empty slot, in which case the first empty bench slot is
filled. -/
theorem c8_slot_choice (r : Roster) (nm pos : String) (pk : Int)
    (slotName : String) (r' : Roster)
    (h : addPlayer r nm pos pk = some (slotName, r')) :
    r' = setSlot r slotName (some ⟨nm, pos, pk, slotName⟩) ∧
    ((∃ ts₁ t ts₂, slotEligibility pos = ts₁ ++ t :: ts₂ ∧
        IsFirstEmptyMatching r t slotName ∧
        ∀ t' ∈ ts₁, NoEmptySlotMatching r t') ∨
      ((∀ t ∈ slotEligibility pos, NoEmptySlotMatching r t) ∧
        IsFirstEmptyMatching r "BENCH" slotName)) :=
  addPlayerGo_spec r nm pos pk (slotEligibility pos) slotName r' h

/-- C8 witness: in the fresh default league roster (QB and OP both
empty), drafting the QB "Josh Allen" fills the base slot "QB", not OP,
because "QB" comes first in the QB eligibility order. -/
theorem c8_slot_choice_witness :
    addPlayer (initRoster defaultRosterConfig) "Josh Allen" "QB" 5 =
      some ("QB", setSlot (initRoster defaultRosterConfig) "QB"
        (some ⟨"Josh Allen", "QB", 5, "QB"⟩)) ∧
    (setSlot (initRoster defaultRosterConfig) "QB"
        (some ⟨"Josh Allen", "QB", 5, "QB"⟩) =
      setSlot (initRoster defaultRosterConfig) "QB"
        (some ⟨"Josh Allen", "QB", 5, "QB"⟩) ∧
    ((∃ ts₁ t ts₂, slotEligibility "QB" = ts₁ ++ t :: ts₂ ∧
        IsFirstEmptyMatching (initRoster defaultRosterConfig) t "QB" ∧
        ∀ t' ∈ ts₁, NoEmptySlotMatching (initRoster defaultRosterConfig) t') ∨
      ((∀ t ∈ slotEligibility "QB",
          NoEmptySlotMatching (initRoster defaultRosterConfig) t) ∧
        IsFirstEmptyMatching (initRoster defaultRosterConfig) "BENCH" "QB"))) :=
  ⟨by decide,
    c8_slot_choice (initRoster defaultRosterConfig) "Josh Allen" "QB" 5 "QB"
      (setSlot (initRoster defaultRosterConfig) "QB"
        (some ⟨"Josh Allen", "QB", 5, "QB"⟩)) (by decide)⟩

/-! ## C1 -/

/-- The session bookkeeping invariant maintained by `draft_player` and
`undo_last_pick`: the drafted-list length tracks the pick counter, no
name is drafted twice, and every team entry names a drafted player,
each exactly once. -/
def DraftInv (s : DraftState) : Prop :=
  (s.draftedPlayers.length : Int) = s.currentPick - 1 ∧
  s.draftedPlayers.Nodup ∧
  (∀ e ∈ s.myTeam, e.player ∈ s.draftedPlayers) ∧
  (s.myTeam.map TeamEntry.player).Nodup

/-- `draft_player` preserves the session invariant (both teams, all
failure modes included). -/
theorem draftPlayer_preserves_inv
    (fz : String → List PoolPlayer → Option PoolPlayer)
    (s : DraftState) (input team : String)
    (hinv : DraftInv s) : DraftInv (draftPlayer fz s input team).2 := by
  obtain ⟨hlen, hnd, hsub, hndm⟩ := hinv
  unfold draftPlayer
  cases hres : resolveInput fz s.players input with
  | none => exact ⟨hlen, hnd, hsub, hndm⟩
  | some p =>
    dsimp only
    by_cases hd : p.player ∈ s.draftedPlayers
    · rw [if_pos hd]
      exact ⟨hlen, hnd, hsub, hndm⟩
    · rw [if_neg hd]
      have hnd' : (s.draftedPlayers ++ [p.player]).Nodup := by
        rw [List.nodup_append]
        exact ⟨hnd, List.nodup_singleton _, by simpa using hd⟩
      have hlen' : ((s.draftedPlayers ++ [p.player]).length : Int) =
          s.currentPick + 1 - 1 := by
        rw [List.length_append, List.length_singleton]
        push_cast
        omega
      by_cases ht : team = "my_team"
      · rw [if_pos ht]
        cases hadd : addPlayer s.roster p.player (normalizePos p.position)
            s.currentPick with
        | none =>
          dsimp only
          rw [erase_append_self hd]
          exact ⟨hlen, hnd, hsub, hndm⟩
        | some pr =>
          obtain ⟨slot, r'⟩ := pr
          dsimp only
          refine ⟨hlen', hnd', ?_, ?_⟩
          · intro e he
            rcases List.mem_append.mp he with he' | he'
            · exact List.mem_append_left _ (hsub e he')
            · rcases List.mem_singleton.mp he' with rfl
              exact List.mem_append_right _ (by simp)
          · rw [List.map_append, List.nodup_append]
            refine ⟨hndm, by simp, ?_⟩
            intro a ha ha'
            rcases List.mem_singleton.mp (by simpa using ha') with rfl
            obtain ⟨e, he, hpe⟩ := List.mem_map.mp ha
            exact hd (hpe ▸ hsub e he)
      · rw [if_neg ht]
        dsimp only
        refine ⟨hlen', hnd', fun e he => List.mem_append_left _ (hsub e he),
          hndm⟩

/-- `undo_last_pick` preserves the session invariant. -/
theorem undoLastPick_preserves_inv (s : DraftState)
    (hinv : DraftInv s) : DraftInv (undoLastPick s).2 := by
  obtain ⟨hlen, hnd, hsub, hndm⟩ := hinv
  unfold undoLastPick
  cases hlast : s.myTeam.getLast? with
  | none => exact ⟨hlen, hnd, hsub, hndm⟩
  | some e =>
    dsimp only
    by_cases hpk : e.pick = s.currentPick - 1
    · rw [if_pos hpk]
      have hne : s.myTeam ≠ [] := by
        intro h0
        rw [h0] at hlast
        cases hlast
      have hegl : s.myTeam.getLast hne = e := by
        rw [List.getLast?_eq_getLast _ hne] at hlast
        injection hlast
      have hsplit : s.myTeam.dropLast ++ [e] = s.myTeam := by
        rw [← hegl]
        exact List.dropLast_append_getLast hne
      have hemem : e ∈ s.myTeam := hegl ▸ List.getLast_mem hne
      have hedrafted : e.player ∈ s.draftedPlayers := hsub e hemem
      have hdisj : (s.myTeam.dropLast.map TeamEntry.player).Disjoint
          [e.player] := by
        have h2 := hndm
        rw [← hsplit, List.map_append] at h2
        exact (List.nodup_append.mp h2).2.2
      refine ⟨?_, hnd.erase _, ?_, ?_⟩
      · have h1 := List.length_erase_add_one hedrafted
        dsimp only
        omega
      · intro e' he'
        have he'my : e' ∈ s.myTeam := (List.dropLast_sublist s.myTeam).subset he'
        have hneq : e'.player ≠ e.player := fun hc =>
          hdisj (List.mem_map.mpr ⟨e', he', hc⟩) (by simp)
        exact (List.mem_erase_of_ne hneq).mpr (hsub e' he'my)
      · exact hndm.sublist ((List.dropLast_sublist s.myTeam).map _)
    · rw [if_neg hpk]
      exact ⟨hlen, hnd, hsub, hndm⟩

/-- Every state reachable by `draft_player` and `undo_last_pick`
satisfies the session invariant. -/
theorem reachableDU_inv (s : DraftState) (h : ReachableDU s) : DraftInv s := by
  induction h with
  | init pool r =>
    exact ⟨by simp [initState], List.nodup_nil, by simp [initState],
      by simp [initState]⟩
  | draft fz input team s hs ih =>
    exact draftPlayer_preserves_inv fz s input team ih
  | undo s hs ih => exact undoLastPick_preserves_inv s ih

/-- C1 counterexample: the invariant
`len(draftedPlayers) == currentPick - 1` does *not* survive
`drop_player`. Drafting Josh Allen from the fresh session (pick
counter at 2, one drafted name) and then dropping him removes the name
from `drafted_players` while leaving `current_pick` at 2, so the
length is 0 but `currentPick - 1 = 1`. -/
theorem c1_counterexample :
    (draftPlayer fzNone (initState demoPool (initRoster defaultRosterConfig))
      "josh allen" "my_team").1 = true ∧
    (dropPlayer dfzNone demoState1 "Josh Allen").1 = true ∧
    ¬(((dropPlayer dfzNone demoState1 "Josh Allen").2.draftedPlayers.length :
        Int) =
      (dropPlayer dfzNone demoState1 "Josh Allen").2.currentPick - 1) := by
  decide

/-- C1 (amended): for every session reachable from the initial state
(`currentPick = 1`, empty `draftedPlayers`) by the operations
`draft_player` (either team) and `undo_last_pick`, the invariant
`len(draftedPlayers) == currentPick - 1` holds after every operation;
`drop_player` does not preserve it (it removes the dropped name while
leaving the pick counter untouched). -/
theorem c1_invariant_draft_undo (s : DraftState) (h : ReachableDU s) :
    (s.draftedPlayers.length : Int) = s.currentPick - 1 :=
  (reachableDU_inv s h).1

/-- C1 witness: the invariant at the concrete reachable state after one
draft. -/
theorem c1_invariant_draft_undo_witness :
    (demoState1.draftedPlayers.length : Int) = demoState1.currentPick - 1 :=
  c1_invariant_draft_undo demoState1
    (ReachableDU.draft fzNone "josh allen" "my_team" _
      (ReachableDU.init demoPool (initRoster defaultRosterConfig)))
